import Mathlib

/-!
Shallow embedding of the arbitrary-precision BCD integer engine of
`src/c/include/bcd.h` (repository gappleto97/Euler), together with theorems
settling the frozen claims about it.

Modelling conventions:
* `packed_BCD_pair` (a `uint8_t`) becomes `Nat` with an explicit `% 256`
  wherever the C code stores into a byte; `uintmax_t` is 64 bits wide and
  wraps modulo `2 ^ 64`.
* Heap buffers become `List Nat`; `malloc` is assumed to succeed (the
  `NO_MEM` paths are unreachable in the embedding), and `free_BCD_int` on a
  temporary is a no-op, so the in-place operator wrappers (`iadd_bcd`,
  `isub_bcd`, ...) coincide with their pure counterparts.
* The C `while` loop of `divmod_bcd` is given an explicit fuel argument;
  running out of fuel is reported as a separate `DMres.diverge` outcome.
* `divmod_bcd` takes a `mod_present : Bool` modelling whether the `mod`
  out-parameter is a valid pointer or `NULL`; a store through a `NULL`
  pointer is reported as `DMres.crash`.
* Reads `p[i]` become `List.getD` and stores become `List.set` (guarded
  indexing: an out-of-range store is dropped); `mul_bcd_pow_10` additionally
  reports the index of the final `|=` store of its odd-shift branch so that
  out-of-range stores are observable.
-/

set_option maxHeartbeats 1000000

/-- Embedding of `comp_t`, the enum returned by BCD comparisons. -/
inductive comp_t
  | EQUAL_TO
  | GREATER_THAN
  | LESS_THAN
  | NO_COMP
deriving DecidableEq

/-- Embedding of `BCD_error`, the enum used to track errors in BCD integers. -/
inductive BCD_error
  | NON_ERR
  | ORIG_NAN
  | IS_FREED
  | ADD_NAN
  | SUB_NAN
  | MUL_NAN
  | DIV_NAN
  | POW_NAN
  | FACT_NAN
  | SHIFT_NAN
  | POW_NEG
  | FACT_NEG
  | DIV_ZERO
  | NO_MEM
  | NOT_SUPP
  | RESERVED
deriving DecidableEq

open comp_t BCD_error

/-- Embedding of `struct BCD_int`: little-endian digit-pair bytes plus the
byte count, decimal digit count, and the flag/error fields.  Unspecified
fields of a C compound literal are zero-initialised, which the defaults
mirror. -/
structure BCD_int where
  data : List Nat := []
  bcd_digits : Nat := 0
  decimal_digits : Nat := 0
  negative : Bool := false
  zero : Bool := false
  even : Bool := false
  constant : Bool := false
  nan : Bool := false
  error : BCD_error := NON_ERR
  orig_error : BCD_error := NON_ERR
deriving DecidableEq

/-- The `BCD_one` constant (`.data = "\x01"`). -/
def BCD_one : BCD_int :=
  { data := [1], bcd_digits := 1, decimal_digits := 1, constant := true }

/-- The `BCD_zero` constant. -/
def BCD_zero : BCD_int := { zero := true, even := true, constant := true }

/-- The `BCD_nan` constant. -/
def BCD_nan : BCD_int :=
  { constant := true, nan := true, error := ORIG_NAN, orig_error := ORIG_NAN }

/-- The read `x.data[i]` (uint8 contents; out-of-range reads default to 0). -/
def byteAt (x : BCD_int) (i : Nat) : Nat := x.data.getD i 0

/-- `bcd_error(error, orig_error)`: a NaN value carrying the two error tags. -/
def bcd_error (error orig_error : BCD_error) : BCD_int :=
  { nan := true, error := error, orig_error := orig_error }

/-- `copy_BCD_int`: duplicates the digit buffer (same contents in the
embedding) and clears the `constant` flag. -/
def copy_BCD_int (a : BCD_int) : BCD_int := { a with constant := false }

/-- Fuel-driven decimal digit counter: `numDigitsAux n n` is the number of
decimal digits of `n`, with 0 digits for 0. -/
def numDigitsAux : Nat → Nat → Nat
  | _, 0 => 0
  | 0, _ + 1 => 0
  | fuel + 1, n + 1 => numDigitsAux fuel ((n + 1) / 10) + 1

/-- Embeds the `ceil(log10(a + 1))` computation of `new_BCD_int2`: the number
of decimal digits of `a` (0 for `a = 0`). -/
def decimal_digit_count (a : Nat) : Nat := numDigitsAux a a

/-- The digit-packing loop of `new_BCD_int2`:
`c.data[i] = (((a % 100) / 10) << 4) | (a % 10); a /= 100;`. -/
def packPairs : Nat → Nat → List Nat
  | 0, _ => []
  | k + 1, a => (((a % 100 / 10) <<< 4) ||| (a % 10)) :: packPairs k (a / 100)

/-- `new_BCD_int2(a, negative)`: build a BCD integer from an unsigned native
integer and a sign. -/
def new_BCD_int2 (a : Nat) (negative : Bool) : BCD_int :=
  let dd := decimal_digit_count a
  let m := (dd + 1) / 2
  { negative := negative,
    even := a % 2 == 0,
    zero := a == 0,
    decimal_digits := dd,
    bcd_digits := m,
    data := packPairs m a }

/-- `new_BCD_int1(a)`: build a BCD integer from a signed native integer. -/
def new_BCD_int1 (a : Int) : BCD_int :=
  if a < 0 then new_BCD_int2 (-a).toNat true else new_BCD_int2 a.toNat false

/-- Index of the most significant nonzero byte of a buffer (the C scan
`for (i = chars - 1; i != -1; i--) if (c.data[i]) ...`), `none` if all of the
bytes are zero. -/
def topNonzeroIdx : List Nat → Option Nat
  | [] => none
  | b :: r =>
    match topNonzeroIdx r with
    | some j => some (j + 1)
    | none => if b ≠ 0 then some 0 else none

/-- `BCD_from_bytes(str, chars, negative, little_endian)` with
`chars = str.length`: normalise to little-endian, find the most significant
nonzero byte, and set the digit counts exactly as the C code does. -/
def BCD_from_bytes (str : List Nat) (negative little_endian : Bool) : BCD_int :=
  if str.length = 0 then BCD_zero
  else
    let data := if little_endian then str else str.reverse
    match topNonzeroIdx data with
    | none => BCD_zero
    | some i =>
      { negative := negative,
        data := data,
        bcd_digits := i + 1,
        decimal_digits := if data.getD i 0 &&& 0xF0 ≠ 0 then i * 2 + 1 else i * 2,
        even := data.getD 0 0 % 2 == 0 }

/-- `str[j] - '0'` on an ASCII character. -/
def charVal (c : Char) : Nat := c.toNat - 48

/-- `BCD_from_ascii(str, digits, negative)`: pack ASCII digits into big-endian
bytes (a lone leading digit alone in the first byte when `digits` is odd) and
delegate to `BCD_from_bytes`. -/
def BCD_from_ascii (str : List Char) (digits : Nat) (negative : Bool) : BCD_int :=
  let length := (digits + 1) / 2
  let i0 := digits % 2
  let head : List Nat := if i0 = 1 then [charVal (str.getD 0 '0') % 256] else []
  let rest : List Nat := (List.range (length - i0)).map (fun k =>
    let j := 2 * k + i0
    (((charVal (str.getD j '0')) <<< 4) ||| ((charVal (str.getD (j + 1) '0')) &&& 0xF)) % 256)
  BCD_from_bytes (head ++ rest) negative false

/-- The byte-scan loop of `cmp_bcd`, counting down from `x.bcd_digits`:
the first index (from the top) where the bytes differ decides, inverted when
the operands are negative. -/
def cmp_loop (x y : BCD_int) : Nat → comp_t
  | 0 => EQUAL_TO
  | i + 1 =>
    let xi := byteAt x i
    let yi := byteAt y i
    if xi ≠ yi then
      if x.negative then (if xi > yi then LESS_THAN else GREATER_THAN)
      else (if xi > yi then GREATER_THAN else LESS_THAN)
    else cmp_loop x y i

/-- `cmp_bcd(x, y)`: `NO_COMP` on NaN, then decide by sign, then by decimal
digit count, then by the byte scan. -/
def cmp_bcd (x y : BCD_int) : comp_t :=
  if x.nan || y.nan then NO_COMP
  else if x.negative ≠ y.negative then
    (if x.negative then LESS_THAN else GREATER_THAN)
  else if x.decimal_digits ≠ y.decimal_digits then
    (if x.decimal_digits > y.decimal_digits then
      (if x.negative then LESS_THAN else GREATER_THAN)
     else (if x.negative then GREATER_THAN else LESS_THAN))
  else cmp_loop x y x.bcd_digits

/-- `bool_bcd(x)`: the C body is `return x.zero;`. -/
def bool_bcd (x : BCD_int) : Bool := x.zero

/-- `not_bcd(x)`: the C body is `return !x.zero;`. -/
def not_bcd (x : BCD_int) : Bool := !x.zero

/-- `sign_bcd(x, no_copy, negative)`: set the sign unless NaN; copy unless
`no_copy`. -/
def sign_bcd (x : BCD_int) (no_copy negative : Bool) : BCD_int :=
  let x1 := if x.nan then x else { x with negative := negative }
  if no_copy then x1 else copy_BCD_int x1

/-- `abs_bcd(x, no_copy)`. -/
def abs_bcd (x : BCD_int) (no_copy : Bool) : BCD_int := sign_bcd x no_copy false

/-- `neg_bcd(x, no_copy)`. -/
def neg_bcd (x : BCD_int) (no_copy : Bool) : BCD_int := sign_bcd x no_copy true

/-- `opp_bcd(x, no_copy)`. -/
def opp_bcd (x : BCD_int) (no_copy : Bool) : BCD_int :=
  sign_bcd x no_copy (!x.negative)

/-- The C enum value of a `comp_t` (`EQUAL_TO = 0`, `GREATER_THAN = 1`,
`LESS_THAN = 2`, `NO_COMP = 3`), needed because `sub_bcd` compares the enum
against the integer `-1`. -/
def comp_val : comp_t → Int
  | EQUAL_TO => 0
  | GREATER_THAN => 1
  | LESS_THAN => 2
  | NO_COMP => 3

/-- The aligned digit-pair loop of `add_bcd` over the common prefix of the
two operands, carrying `overflow`; each step mirrors the portable C
decimal-adjust-after-add arithmetic on `uint8_t`. -/
def add_pairs : List Nat → List Nat → Bool → (List Nat × Bool)
  | a :: as, b :: bs, ov =>
    let cv : Nat × Bool :=
      if !ov && a == 0 then (b, false)
      else if !ov && b == 0 then (a, false)
      else
        let b1 := (b + (if ov then 1 else 0)) % 256
        let c0 := (a + b1) % 256
        let ovf := a + b1 > 0x99
        let c1 := if ovf then (c0 + 0x60) % 256 else c0
        let c2 := if a % 16 + b1 % 16 > 9 then (c1 + 0x06) % 256 else c1
        (c2, ovf)
    let rec1 := add_pairs as bs cv.2
    (cv.1 :: rec1.1, rec1.2)
  | _, _, ov => ([], ov)

/-- The carry-propagation tail loop of `add_bcd` (`for (; overflow && i <
max_digits; i++)`), returning the processed prefix, the bytes copied
unchanged by the final `memcpy`, and the final carry. -/
def add_tail : List Nat → Bool → (List Nat × List Nat × Bool)
  | rest, false => ([], rest, false)
  | [], true => ([], [], true)
  | a0 :: rest, true =>
    let a1 := (a0 + 1) % 256
    let a2 := if a1 % 16 == 0xA then (a1 + 0x06) % 256 else a1
    let ov2 := a2 &&& 0xF0 == 0xA0
    let a3 := if ov2 then (a2 + 0x60) % 256 else a2
    let r := add_tail rest ov2
    (a3 :: r.1, r.2.1, r.2.2)

/-- The aligned digit-pair loop of `sub_bcd` over the common prefix,
carrying the borrow; mirrors the portable C decimal-adjust-after-subtract
arithmetic on `uint8_t`. -/
def sub_pairs : List Nat → List Nat → Bool → (List Nat × Bool)
  | a :: as, b :: bs, carry =>
    let b1 := (b + (if carry then 1 else 0)) % 256
    let c0 := (a + 256 - b1) % 256
    let cy := c0 &&& 0xF0 > 0x99
    let c1 := if cy then (c0 + 256 - 0x60) % 256 else c0
    let c2 := if c1 &&& 0x0F > 9 then (c1 + 256 - 0x06) % 256 else c1
    let rec1 := sub_pairs as bs cy
    (c2 :: rec1.1, rec1.2)
  | _, _, carry => ([], carry)

/-- The borrow-propagation tail loop of `sub_bcd`, returning the processed
prefix, the bytes copied unchanged by the final `memcpy`, and the final
borrow.  The C trimming scan afterwards only inspects indices below the end
of the processed prefix, which the embedding preserves. -/
def sub_tail : List Nat → Bool → (List Nat × List Nat × Bool)
  | rest, false => ([], rest, false)
  | [], true => ([], [], true)
  | a0 :: rest, true =>
    let a1 := (a0 + 256 - 1) % 256
    let a2 := if a1 &&& 0x0F == 0x0F then (a1 + 256 - 0x06) % 256 else a1
    let cy2 := a2 &&& 0xF0 == 0xF0
    let a3 := if cy2 then (a2 + 256 - 0x60) % 256 else a2
    let r := sub_tail rest cy2
    (a3 :: r.1, r.2.1, r.2.2)

/-- The same-sign body of `add_bcd` after the NaN/zero/sign fast paths:
digit-pair addition with carry, the extra most-significant byte
`z.data[max_digits] = overflow`, and the digit-count bookkeeping. -/
def add_core (x y : BCD_int) : BCD_int :=
  let maxd := max x.bcd_digits y.bcd_digits
  let mind := min x.bcd_digits y.bcd_digits
  let xd := x.data.take x.bcd_digits
  let yd := y.data.take y.bcd_digits
  let p1 := add_pairs xd yd false
  let longer := if x.bcd_digits < y.bcd_digits then y else x
  let t := add_tail ((longer.data.take longer.bcd_digits).drop mind) p1.2
  let ov := t.2.2
  let body := p1.1 ++ t.1 ++ t.2.1
  { negative := x.negative,
    data := body ++ [if ov then 1 else 0],
    bcd_digits := maxd + (if ov then 1 else 0),
    decimal_digits :=
      if ov then maxd * 2 + 1
      else if body.getD (maxd - 1) 0 &&& 0xF0 ≠ 0 then maxd * 2
      else maxd * 2 - 1,
    even := (body ++ [if ov then 1 else 0]).getD 0 0 % 2 == 0,
    zero := false }

/-- The same-sign body of `sub_bcd` after the NaN/zero/sign fast paths:
compare (note the C bug `z.negative = (cmp == -1)` on an enum that is never
`-1`), subtract with borrow, and trim — the C trimming scan starts below the
index reached by the borrow loop, so bytes placed by the final `memcpy` are
never examined. -/
def sub_core (x y : BCD_int) : BCD_int :=
  let cmp := cmp_bcd x y
  if cmp = EQUAL_TO then BCD_zero
  else
    let mind := min x.bcd_digits y.bcd_digits
    let xd := x.data.take x.bcd_digits
    let yd := y.data.take y.bcd_digits
    let p1 := sub_pairs xd yd false
    let longer := if x.bcd_digits < y.bcd_digits then y else x
    let t := sub_tail ((longer.data.take longer.bcd_digits).drop mind) p1.2
    let scanned := p1.1 ++ t.1
    let z := scanned ++ t.2.1
    match topNonzeroIdx scanned with
    | some k =>
      { negative := decide (comp_val cmp = -1),
        data := z,
        bcd_digits := k + 1,
        decimal_digits :=
          if z.getD k 0 &&& 0xF0 ≠ 0 then 2 * (k + 1) else 2 * (k + 1) - 1,
        even := z.getD 0 0 % 2 == 0,
        zero := false }
    | none => BCD_zero

/-- The bodies of the mutually recursive `add_bcd` (tag `true`) and
`sub_bcd` (tag `false`).  Each delegates to the other exactly on a sign
mismatch, after flipping `y`'s sign, so the delegated call has matching
signs and delegates no further; the structural `fuel` argument (1 at the
entry points) makes that termination argument explicit, and the `fuel = 0`
fallback is unreachable. -/
def addsub_bcd : Nat → Bool → BCD_int → BCD_int → BCD_int
  | fuel, true, x, y =>
    if x.nan || y.nan then
      bcd_error ADD_NAN (if x.nan then x.orig_error else y.orig_error)
    else if x.zero && y.zero then BCD_zero
    else if x.zero then copy_BCD_int y
    else if y.zero then copy_BCD_int x
    else if x.negative ≠ y.negative then
      match fuel with
      | fuel' + 1 => addsub_bcd fuel' false x (opp_bcd y true)
      | 0 => BCD_nan
    else add_core x y
  | fuel, false, x, y =>
    if x.nan || y.nan then
      bcd_error SUB_NAN (if x.nan then x.orig_error else y.orig_error)
    else if x.zero && y.zero then BCD_zero
    else if x.zero then opp_bcd y false
    else if y.zero then copy_BCD_int x
    else if x.negative ≠ y.negative then
      match fuel with
      | fuel' + 1 => addsub_bcd fuel' true x (opp_bcd y true)
      | 0 => BCD_nan
    else sub_core x y

/-- `add_bcd(x, y)`: NaN and zero fast paths, delegation to `sub_bcd` on a
sign mismatch, otherwise the same-sign digit-pair addition. -/
def add_bcd (x y : BCD_int) : BCD_int := addsub_bcd 1 true x y

/-- `sub_bcd(x, y)`: NaN and zero fast paths, delegation to `add_bcd` on a
sign mismatch, otherwise the same-sign digit-pair subtraction. -/
def sub_bcd (x y : BCD_int) : BCD_int := addsub_bcd 1 false x y

/-- `inc_bcd(x) = add_bcd(x, BCD_one)`. -/
def inc_bcd (x : BCD_int) : BCD_int := add_bcd x BCD_one

/-- `dec_bcd(x) = sub_bcd(x, BCD_one)`. -/
def dec_bcd (x : BCD_int) : BCD_int := sub_bcd x BCD_one

/-- `mul_dig_pair(ab, cd)`: unpack the digit pairs and solve by FOIL. -/
def mul_dig_pair (ab cd : Nat) : Nat :=
  let a := ab / 16 % 16
  let b := ab &&& 0xF
  let c := cd / 16 % 16
  let d := cd &&& 0xF
  100 * a * c + 10 * (a * d + b * c) + b * d

/-- `mul_bcd_pow_10(x, tens)`: multiply by a power of ten, by buffer offset
for even `tens` and by a nibble re-pack for odd `tens`.  Stores go through
`List.set` (guarded indexing); the second component is the index of the final
`|=` store of the odd branch (`ret.data[x.bcd_digits + digit_diff] |= ...`),
so an out-of-range final store is observable. -/
def mul_bcd_pow_10 (x : BCD_int) (tens : Nat) : BCD_int × Option Nat :=
  if x.nan then (bcd_error SHIFT_NAN x.orig_error, none)
  else if x.zero then (BCD_zero, none)
  else if tens = 0 then (copy_BCD_int x, none)
  else
    let dd := x.decimal_digits + tens
    let m := (dd + 1) / 2
    let base : List Nat := List.replicate m 0
    let even := x.even || tens ≠ 0
    if tens % 2 = 0 then
      let digit_diff := m - x.bcd_digits
      let data := (List.range x.bcd_digits).foldl
        (fun l i => l.set (i + digit_diff) (byteAt x i)) base
      ({ negative := x.negative, decimal_digits := dd, bcd_digits := m,
         data := data, even := even }, none)
    else
      let digit_diff := m - x.bcd_digits - dd % 2
      let d0 := base.set digit_diff ((byteAt x 0 <<< 4) % 256)
      let d1 := (List.range (x.bcd_digits - 1)).foldl
        (fun l k =>
          let i := k + 1
          l.set (i + digit_diff)
            (((byteAt x i <<< 4) % 256) ||| (byteAt x (i - 1) >>> 4))) d0
      let idx := x.bcd_digits + digit_diff
      let dfin := d1.set idx ((d1.getD idx 0) ||| (byteAt x (x.bcd_digits - 1) >>> 4))
      ({ negative := x.negative, decimal_digits := dd, bcd_digits := m,
         data := dfin, even := even }, some idx)

/-- `mul_bcd(x, y)`: NaN and zero fast paths, then the nested loop of
2-digit-by-2-digit partial products, each shifted by its positional power of
ten and accumulated with `iadd_bcd`; the result sign is assigned at the end
as the XOR of the operand signs. -/
def mul_bcd (x y : BCD_int) : BCD_int :=
  if x.nan || y.nan then
    bcd_error MUL_NAN (if x.nan then x.orig_error else y.orig_error)
  else if x.zero || y.zero then BCD_zero
  else
    let answer := (List.range x.bcd_digits).foldl (fun acc i =>
      (List.range y.bcd_digits).foldl (fun acc2 j =>
        let staging := mul_dig_pair (byteAt x i) (byteAt y j)
        if staging = 0 then acc2
        else
          let pow10 := 2 * i + 2 * j
          let addend := new_BCD_int2 staging false
          let addend2 := if pow10 ≠ 0 then (mul_bcd_pow_10 addend pow10).1 else addend
          add_bcd acc2 addend2) acc) BCD_zero
    { answer with negative := !(x.negative == y.negative) }

/-- Outcome of `divmod_bcd`: a store through a `NULL` `mod` pointer
(`crash`), loop fuel exhaustion (`diverge`), or a quotient together with
what was stored through `mod` (if anything). -/
inductive DMres
  | crash
  | diverge
  | ok (div : BCD_int) (mod : Option BCD_int)
deriving DecidableEq

/-- The repeated-subtraction loop of `divmod_bcd`:
`while (!x.zero && cmp_bcd(tmp, y) != LESS_THAN) { isub_bcd(&tmp, y);
iinc_bcd(&div); }`, with explicit fuel. -/
def divmodLoop (x y : BCD_int) : Nat → BCD_int → BCD_int → Option (BCD_int × BCD_int)
  | 0, tmp, div =>
    if x.zero = false ∧ cmp_bcd tmp y ≠ LESS_THAN then none else some (tmp, div)
  | fuel + 1, tmp, div =>
    if x.zero = false ∧ cmp_bcd tmp y ≠ LESS_THAN then
      divmodLoop x y fuel (sub_bcd tmp y) (inc_bcd div)
    else some (tmp, div)

/-- `divmod_bcd(x, y, mod)`: error fast path (divide by zero / NaN), the
`x == 0` and `x == ±1` fast paths (the latter tests the *dividend*), then
repeated subtraction on sign-stripped operands with the final sign and
remainder fix-up.  `mod_present` models whether `mod` is non-`NULL`; the C
code stores through `mod` unconditionally on the error, `x == 0`, `x == ±1`
and differing-signs paths, which is a `NULL` dereference (`DMres.crash`)
when `mod_present = false`. -/
def divmod_bcd (x y : BCD_int) (mod_present : Bool) (fuel : Nat) : DMres :=
  if x.nan || y.nan || y.zero then
    let error := if y.zero then DIV_ZERO else DIV_NAN
    let orig_error :=
      if x.nan then x.orig_error else if y.nan then y.orig_error else error
    if mod_present then
      DMres.ok (bcd_error error orig_error) (some (bcd_error error orig_error))
    else DMres.crash
  else if x.zero then
    if mod_present then DMres.ok BCD_zero (some BCD_zero) else DMres.crash
  else if x.decimal_digits = 1 ∧ byteAt x 0 = 1 then
    if mod_present then
      DMres.ok (sign_bcd (copy_BCD_int x) true (x.negative != y.negative)) (some BCD_zero)
    else DMres.crash
  else
    let x_negative := x.negative
    let y_negative := y.negative
    let tmp0 := { copy_BCD_int x with negative := false }
    let y2 := { y with negative := false }
    match divmodLoop x y2 fuel tmp0 BCD_zero with
    | none => DMres.diverge
    | some (tmp, div0) =>
      let divneg := x_negative != y_negative
      let div1 := { div0 with negative := divneg }
      if divneg then
        let div2 := if !tmp.zero then dec_bcd div1 else div1
        if mod_present then
          DMres.ok div2 (some { sub_bcd y2 tmp with negative := y_negative })
        else DMres.crash
      else
        if mod_present then DMres.ok div1 (some (sign_bcd tmp true y_negative))
        else DMres.ok div1 none

/-- `div_bcd(x, y) = divmod_bcd(x, y, NULL)`. -/
def div_bcd (x y : BCD_int) (fuel : Nat) : DMres := divmod_bcd x y false fuel

/-- `mod_bcd(x, y)`: fast path when the divisor has magnitude one (checked
*before* the NaN test), otherwise `divmod_bcd` with a valid `mod` pointer;
`none` only on fuel exhaustion. -/
def mod_bcd (x y : BCD_int) (fuel : Nat) : Option BCD_int :=
  if y.decimal_digits = 1 ∧ byteAt y 0 = 1 then some BCD_zero
  else
    match divmod_bcd x y true fuel with
    | DMres.ok _ m => m
    | _ => none

/-- Modelled from the spec: `POW_OF_MAX_POW_10_64` comes from `macros.h`,
which is not among the sources; per the spec the native unsigned type is 64
bits wide and this constant is the exponent of the largest power of ten that
fits in it, namely 19. -/
def POW_OF_MAX_POW_10_64 : Nat := 19

/-- `UINTMAX_MAX`, the value of `(uintmax_t) -1`. -/
def UINTMAX_MAX : Nat := 2 ^ 64 - 1

/-- `abs_bcd_cuint(x)`: digit-count bound check, accumulation of digit-pair
values weighted by powers of one hundred (wrapping modulo `2 ^ 64`), and the
final low-digit consistency check — which the C code writes as
`x.data[0] % 0xF` (modulo fifteen), not `& 0xF`. -/
def abs_bcd_cuint (x : BCD_int) : Nat :=
  if x.nan || decide (x.decimal_digits > POW_OF_MAX_POW_10_64 + 2) then UINTMAX_MAX
  else
    let answer := (List.range x.bcd_digits).foldl
      (fun acc i =>
        (acc + 100 ^ i % 2 ^ 64 * ((byteAt x i &&& 0x0F) + 10 * (byteAt x i >>> 4))) % 2 ^ 64)
      0
    if byteAt x 0 % 0xF ≠ answer % 10 then UINTMAX_MAX else answer

/-- `INTMAX_MAX` as a `Nat`. -/
def INTMAX_MAX : Nat := 2 ^ 63 - 1

/-- `INTMAX_MIN`. -/
def INTMAX_MIN : Int := -(2 ^ 63)

/-- `val_bcd_cint(x)`: signed conversion through `abs_bcd_cuint`, with the
`INTMAX_MIN` sentinel on NaN, on the digit-count bound, and on overflow of
the signed range. -/
def val_bcd_cint (x : BCD_int) : Int :=
  if x.nan || decide (x.decimal_digits > POW_OF_MAX_POW_10_64 + 1) then INTMAX_MIN
  else
    let answer := abs_bcd_cuint x
    if answer > INTMAX_MAX then INTMAX_MIN
    else if x.negative then -(answer : Int) else (answer : Int)

/-- A hexadecimal digit character as printed by `printf("%x", ...)`. -/
def hexDigit (n : Nat) : Char :=
  if n < 10 then Char.ofNat (48 + n) else Char.ofNat (97 + n - 10)

/-- `print_bcd(x)` as the list of characters written: `"NaN"` for NaN, `"0"`
for zero, otherwise a sign character if negative, the most significant byte
via `"%x"` (unpadded), and every remaining byte via `"%02x"` (two digits). -/
def print_bcd (x : BCD_int) : List Char :=
  if x.nan then ['N', 'a', 'N']
  else if x.zero then ['0']
  else
    let sign : List Char := if x.negative then ['-'] else []
    let top := byteAt x (x.bcd_digits - 1)
    let topChars :=
      if top < 16 then [hexDigit (top % 16)]
      else [hexDigit (top / 16 % 16), hexDigit (top % 16)]
    let rest := ((List.range (x.bcd_digits - 1)).reverse.map (fun i =>
      [hexDigit (byteAt x i / 16 % 16), hexDigit (byteAt x i % 16)])).flatten
    sign ++ topChars ++ rest

/-- The numeric value of one packed digit-pair byte: ten times the high
nibble plus the low nibble. -/
def byteVal (b : Nat) : Nat := 10 * (b / 16) + b % 16

/-- The magnitude denoted by a little-endian digit-pair buffer. -/
def magVal : List Nat → Nat
  | [] => 0
  | b :: r => byteVal b + 100 * magVal r

/-- The magnitude denoted by a `BCD_int`'s significant bytes. -/
def mag (x : BCD_int) : Nat := magVal (x.data.take x.bcd_digits)

/-- The integer denoted by a finite `BCD_int`. -/
def val (x : BCD_int) : Int :=
  if x.negative then -(mag x : Int) else (mag x : Int)

/-- A byte that holds two decimal digits. -/
def ValidBCDByte (b : Nat) : Prop := b / 16 ≤ 9 ∧ b % 16 ≤ 9

instance (b : Nat) : Decidable (ValidBCDByte b) := by
  unfold ValidBCDByte; infer_instance

/-- Canonical form of a finite value, as the data-model invariants state it:
valid digit-pair bytes, a most significant byte that is nonzero, a decimal
digit count of twice the byte count (or one less when the top nibble is
clear), and a non-negative canonical zero with no significant bytes. -/
def Canonical (x : BCD_int) : Prop :=
  x.nan = false ∧
  x.bcd_digits ≤ x.data.length ∧
  (∀ b ∈ x.data.take x.bcd_digits, ValidBCDByte b) ∧
  (x.zero = true → x.bcd_digits = 0 ∧ x.decimal_digits = 0 ∧ x.negative = false) ∧
  (x.zero = false → 1 ≤ x.bcd_digits ∧ byteAt x (x.bcd_digits - 1) ≠ 0 ∧
    x.decimal_digits =
      (if 16 ≤ byteAt x (x.bcd_digits - 1) then 2 * x.bcd_digits
       else 2 * x.bcd_digits - 1))

instance (x : BCD_int) : Decidable (Canonical x) := by
  unfold Canonical; infer_instance

/-- The comparison result demanded by the mathematical order on `ℤ`. -/
def compSpec (a b : Int) : comp_t :=
  if a = b then EQUAL_TO else if b < a then GREATER_THAN else LESS_THAN

/-- Projection of a `divmod_bcd` outcome to the integer values of the
quotient and the stored remainder. -/
def dm_val (r : DMres) : Option (Int × Int) :=
  match r with
  | DMres.ok d (some m) => some (val d, val m)
  | _ => none

/-! ## Helper lemmas for the comparison-correctness development -/

theorem byteVal_le99 (b : Nat) (h : ValidBCDByte b) : byteVal b ≤ 99 := by
  obtain ⟨h1, h2⟩ := h
  unfold byteVal
  omega

theorem byteVal_lt_iff {a b : Nat} (ha : ValidBCDByte a) (hb : ValidBCDByte b) :
    byteVal a < byteVal b ↔ a < b := by
  obtain ⟨ha1, ha2⟩ := ha
  obtain ⟨hb1, hb2⟩ := hb
  unfold byteVal
  omega

theorem byteVal_inj {a b : Nat} (ha : ValidBCDByte a) (hb : ValidBCDByte b) :
    byteVal a = byteVal b ↔ a = b := by
  obtain ⟨ha1, ha2⟩ := ha
  obtain ⟨hb1, hb2⟩ := hb
  unfold byteVal
  omega

theorem magVal_lt (L : List Nat) (h : ∀ b ∈ L, ValidBCDByte b) :
    magVal L < 100 ^ L.length := by
  induction L with
  | nil => simp [magVal]
  | cons b r ih =>
    simp only [magVal, List.length_cons, pow_succ]
    have hb := byteVal_le99 b (h b (by simp))
    have hr := ih (fun c hc => h c (by simp [hc]))
    have hP : 1 ≤ 100 ^ r.length := Nat.one_le_pow _ _ (by norm_num)
    omega

theorem mem_take_of_lt {L : List Nat} {n : Nat} (h : n < L.length) :
    L.getD n 0 ∈ L.take (n + 1) := by
  induction n generalizing L with
  | zero =>
    cases L with
    | nil => simp at h
    | cons b r => simp [List.getD]
  | succ n ih =>
    cases L with
    | nil => simp at h
    | cons b r =>
      simp only [List.take_succ_cons, List.getD_cons_succ]
      exact List.mem_cons_of_mem _ (ih (by simpa using h))

theorem mem_take_mono {L : List Nat} {m n : Nat} (h : m ≤ n) {b : Nat}
    (hb : b ∈ L.take m) : b ∈ L.take n := by
  rw [show L.take m = (L.take n).take m by rw [List.take_take, Nat.min_eq_left h]] at hb
  exact List.take_subset _ _ hb

theorem magVal_take_succ (L : List Nat) (n : Nat) (h : n < L.length) :
    magVal (L.take (n + 1)) = magVal (L.take n) + 100 ^ n * byteVal (L.getD n 0) := by
  induction n generalizing L with
  | zero =>
    cases L with
    | nil => simp at h
    | cons b r => simp [magVal, List.getD]
  | succ n ih =>
    cases L with
    | nil => simp at h
    | cons b r =>
      simp only [List.take_succ_cons, magVal, List.getD_cons_succ]
      rw [ih r (by simpa using h)]
      ring

/-! ## Claim theorems (concrete evaluations and the multiplicative claims) -/

/-- C1: the floor-division identity `div(x,y)*y + mod(x,y) = x` fails on the
code: `divmod_bcd` has a fast path that tests the *dividend* for magnitude
one, so `divmod(1, 5)` returns quotient 1 and remainder 0, and
`1 * 5 + 0 ≠ 1`.  The claim's concrete examples `divmod(28, 5) = (5, 3)` and
`divmod(-7, 2) = (-4, 1)` do hold; a further slip makes the remainder `y`
instead of 0 when the signs differ and the division is exact:
`divmod(-4, 2) = (-2, 2)`. -/
theorem claim_C1_divmod_identity :
    dm_val (divmod_bcd (new_BCD_int2 1 false) (new_BCD_int2 5 false) true 0) = some (1, 0) ∧
    val (new_BCD_int2 1 false) * val (new_BCD_int2 5 false) + 0 ≠ val (new_BCD_int2 1 false) ∧
    dm_val (divmod_bcd (new_BCD_int2 28 false) (new_BCD_int2 5 false) true 100) = some (5, 3) ∧
    dm_val (divmod_bcd (new_BCD_int1 (-7)) (new_BCD_int2 2 false) true 100) = some (-4, 1) ∧
    dm_val (divmod_bcd (new_BCD_int1 (-4)) (new_BCD_int2 2 false) true 100) = some (-2, 2) := by
  decide

/-- C2: error propagation fails on the code: `mod_bcd` short-circuits on a
divisor of magnitude one *before* its NaN check, so `mod_bcd(NaN, 1)`
returns the finite value zero instead of an Error tagged with the
operation's on-error code. -/
theorem claim_C2_error_propagation :
    mod_bcd BCD_nan BCD_one 0 = some BCD_zero ∧
    BCD_zero.nan = false ∧ BCD_nan.nan = true := by
  decide

/-- C3: `divmod_bcd` with a valid `mod` pointer does return the Error state
tagged `DIV_ZERO` (and stores the same Error through `mod`), but
`div_bcd(5, 0)` passes `mod = NULL` and the divide-by-zero path stores
through it unconditionally, a `NULL` dereference rather than the claimed
Error return. -/
theorem claim_C3_divide_by_zero :
    div_bcd (new_BCD_int2 5 false) BCD_zero 0 = DMres.crash ∧
    divmod_bcd (new_BCD_int2 5 false) BCD_zero true 0 =
      DMres.ok (bcd_error DIV_ZERO DIV_ZERO) (some (bcd_error DIV_ZERO DIV_ZERO)) := by
  decide

/-- C4: canonical form fails for `BCD_from_bytes`: on the single byte `0x05`
it produces `bcd_digits = 1` but `decimal_digits = 0` (the scan computes
`i*2` / `i*2+1` instead of `(i+1)*2` / `(i+1)*2 - 1`), so the value is not
in canonical form. -/
theorem claim_C4_from_bytes_canonical :
    (BCD_from_bytes [5] false true).bcd_digits = 1 ∧
    (BCD_from_bytes [5] false true).decimal_digits = 0 ∧
    ¬ Canonical (BCD_from_bytes [5] false true) := by
  decide

/-- C6: the render/re-parse round trip fails on the code: printing the value
5 gives the digit string "5", but re-parsing it goes through
`BCD_from_bytes`, whose decimal-digit count is one too small, and `cmp_bcd`
then reports the original as strictly greater instead of equal. -/
theorem claim_C6_round_trip :
    cmp_bcd (new_BCD_int2 5 false)
      (BCD_from_ascii (print_bcd (new_BCD_int2 5 false))
        (print_bcd (new_BCD_int2 5 false)).length false) = GREATER_THAN := by
  decide

/-- C7: native conversion fails on the code: the magnitude of 15 fits the
unsigned range (its `mag` is 15), yet `abs_bcd_cuint` returns the
`UINTMAX_MAX` sentinel, because its final consistency check reads
`x.data[0] % 0xF` (modulo fifteen) instead of `& 0xF`; `val_bcd_cint`
consequently returns `INTMAX_MIN` as well. -/
theorem claim_C7_native_conversion :
    abs_bcd_cuint (new_BCD_int2 15 false) = UINTMAX_MAX ∧
    val_bcd_cint (new_BCD_int2 15 false) = INTMAX_MIN ∧
    mag (new_BCD_int2 15 false) = 15 := by
  decide

/-- C8 counterexample: at `x = -3`, `y = 0` exactly one operand is negative,
yet `mul_bcd` returns the (non-negative) zero, so "`mul_bcd(x, y)` is
negative iff exactly one of `x`, `y` is negative" is false as stated. -/
theorem claim_C8_counterexample :
    ¬ (((mul_bcd (new_BCD_int1 (-3)) BCD_zero).negative = true) ↔
        ¬ ((new_BCD_int1 (-3)).negative = BCD_zero.negative)) := by
  decide

/-- C8 (amended): for finite operands, if both are nonzero then the sign
flag of `mul_bcd(x, y)` is the XOR of the operands' sign flags, and
`mul_bcd(x, zero) = zero` for every finite `x`. -/
theorem claim_C8_mul_sign (x y : BCD_int) (hx : x.nan = false) (hy : y.nan = false) :
    (x.zero = false → y.zero = false →
      (mul_bcd x y).negative = (x.negative != y.negative)) ∧
    mul_bcd x BCD_zero = BCD_zero := by
  constructor
  · intro hx0 hy0
    simp [mul_bcd, hx, hy, hx0, hy0, bne]
  · simp [mul_bcd, hx, BCD_zero]

/-- C8 witness: the amended theorem applied at `x = -3`, `y = 5`. -/
theorem claim_C8_witness :
    ((mul_bcd (new_BCD_int1 (-3)) (new_BCD_int2 5 false)).negative
      = ((new_BCD_int1 (-3)).negative != (new_BCD_int2 5 false).negative)) ∧
    mul_bcd (new_BCD_int1 (-3)) BCD_zero = BCD_zero :=
  ⟨(claim_C8_mul_sign (new_BCD_int1 (-3)) (new_BCD_int2 5 false)
      (by decide) (by decide)).1 (by decide) (by decide),
   (claim_C8_mul_sign (new_BCD_int1 (-3)) (new_BCD_int2 5 false)
      (by decide) (by decide)).2⟩

/-- C9: `bool_bcd` returns exactly the zero flag and `not_bcd` its negation
— i.e. each is the logical opposite of a nonzero check (and of its own
documentation, which promises "non-zero" for `bool_bcd`). -/
theorem claim_C9_truth_tests (x : BCD_int) :
    bool_bcd x = x.zero ∧ not_bcd x = !x.zero :=
  ⟨rfl, rfl⟩

/-- C10: for every canonical finite nonzero `x` with an odd decimal digit
count and every odd shift amount, the final `|=` store of
`mul_bcd_pow_10`'s odd-shift branch lands at index equal to the result's
allocated byte count (`bcd_digits`), i.e. one byte past the end of the
allocated buffer. -/
theorem claim_C10_shift_oob (x : BCD_int) (tens : Nat) (hc : Canonical x)
    (hz : x.zero = false) (hd : x.decimal_digits % 2 = 1) (ht : tens % 2 = 1) :
    (mul_bcd_pow_10 x tens).2 = some ((mul_bcd_pow_10 x tens).1.bcd_digits) := by
  obtain ⟨hnan, hlen, hvalid, hzc, hnzc⟩ := hc
  obtain ⟨hb1, htopnz, hdd⟩ := hnzc hz
  have hbcd : x.bcd_digits = (x.decimal_digits + 1) / 2 := by
    split at hdd <;> omega
  have htne : ¬ tens = 0 := by omega
  have hto : ¬ tens % 2 = 0 := by omega
  simp only [mul_bcd_pow_10, hnan, hz, Bool.false_eq_true, if_false, htne, hto,
    if_true]
  simp only [Option.some.injEq]
  omega

/-- C10 witness: the theorem applied at `x = 5`, `tens = 1`. -/
theorem claim_C10_witness :
    Canonical (new_BCD_int2 5 false) ∧
    (new_BCD_int2 5 false).decimal_digits % 2 = 1 ∧
    (mul_bcd_pow_10 (new_BCD_int2 5 false) 1).2 =
      some ((mul_bcd_pow_10 (new_BCD_int2 5 false) 1).1.bcd_digits) :=
  ⟨by decide, by decide,
   claim_C10_shift_oob (new_BCD_int2 5 false) 1 (by decide) (by decide)
     (by decide) (by decide)⟩

theorem pow100 (k : Nat) : (100 : Nat) ^ k = 10 ^ (2 * k) := by
  rw [pow_mul]
  norm_num

theorem compSpec_eq_EQUAL {a b : Int} (h : a = b) : compSpec a b = EQUAL_TO := by
  simp [compSpec, h]

theorem compSpec_eq_GREATER {a b : Int} (h : b < a) : compSpec a b = GREATER_THAN := by
  rw [compSpec, if_neg (by omega), if_pos h]

theorem compSpec_eq_LESS {a b : Int} (h : a < b) : compSpec a b = LESS_THAN := by
  rw [compSpec, if_neg (by omega), if_neg (by omega)]

theorem val_of_pos (x : BCD_int) (h : x.negative = false) : val x = (mag x : Int) := by
  simp [val, h]

theorem val_of_neg (x : BCD_int) (h : x.negative = true) : val x = -(mag x : Int) := by
  simp [val, h]

theorem mag_zero (x : BCD_int) (h : x.bcd_digits = 0) : mag x = 0 := by
  rw [mag, h]
  rfl

theorem mag_bounds (x : BCD_int) (hc : Canonical x) (hz : x.zero = false) :
    10 ^ (x.decimal_digits - 1) ≤ mag x ∧ mag x < 10 ^ x.decimal_digits := by
  obtain ⟨hnan, hlen, hvalid, hzc, hnzc⟩ := hc
  obtain ⟨hb1, htopnz, hdd⟩ := hnzc hz
  have hm1 : x.bcd_digits - 1 < x.data.length := by omega
  have hmag : mag x = magVal (x.data.take (x.bcd_digits - 1)) +
      100 ^ (x.bcd_digits - 1) * byteVal (x.data.getD (x.bcd_digits - 1) 0) := by
    rw [mag, show x.bcd_digits = (x.bcd_digits - 1) + 1 by omega]
    exact magVal_take_succ _ _ hm1
  have hA : magVal (x.data.take (x.bcd_digits - 1)) < 100 ^ (x.bcd_digits - 1) := by
    have h := magVal_lt (x.data.take (x.bcd_digits - 1))
      (fun b hb => hvalid b (mem_take_mono (by omega) hb))
    rwa [List.length_take, Nat.min_eq_left (by omega)] at h
  have hvtop : ValidBCDByte (x.data.getD (x.bcd_digits - 1) 0) := by
    apply hvalid
    have h := mem_take_of_lt hm1
    rwa [show x.bcd_digits - 1 + 1 = x.bcd_digits by omega] at h
  obtain ⟨ht1, ht2⟩ := hvtop
  rw [byteAt] at htopnz hdd
  by_cases htop : 16 ≤ x.data.getD (x.bcd_digits - 1) 0
  · have hdd2 : x.decimal_digits = 2 * x.bcd_digits := by rw [hdd, if_pos htop]
    have hbv10 : 10 ≤ byteVal (x.data.getD (x.bcd_digits - 1) 0) := by
      unfold byteVal; omega
    have hbv99 : byteVal (x.data.getD (x.bcd_digits - 1) 0) ≤ 99 := by
      unfold byteVal; omega
    constructor
    · have h1 : (10 : Nat) ^ (2 * x.bcd_digits - 1) = 100 ^ (x.bcd_digits - 1) * 10 := by
        rw [pow100, ← pow_succ]
        congr 1
        omega
      have h2 : 100 ^ (x.bcd_digits - 1) * 10 ≤
          100 ^ (x.bcd_digits - 1) * byteVal (x.data.getD (x.bcd_digits - 1) 0) :=
        Nat.mul_le_mul_left _ hbv10
      rw [hdd2]
      omega
    · have h1 : (10 : Nat) ^ (2 * x.bcd_digits) = 100 ^ (x.bcd_digits - 1) * 100 := by
        rw [pow100, show (100 : Nat) = 10 ^ 2 from rfl, ← pow_add]
        congr 1
        omega
      have h2 : 100 ^ (x.bcd_digits - 1) * byteVal (x.data.getD (x.bcd_digits - 1) 0) ≤
          100 ^ (x.bcd_digits - 1) * 99 :=
        Nat.mul_le_mul_left _ hbv99
      rw [hdd2]
      omega
  · have hdd2 : x.decimal_digits = 2 * x.bcd_digits - 1 := by rw [hdd, if_neg htop]
    have hbv1 : 1 ≤ byteVal (x.data.getD (x.bcd_digits - 1) 0) := by
      unfold byteVal; omega
    have hbv9 : byteVal (x.data.getD (x.bcd_digits - 1) 0) ≤ 9 := by
      unfold byteVal; omega
    constructor
    · have h1 : (10 : Nat) ^ (2 * x.bcd_digits - 1 - 1) = 100 ^ (x.bcd_digits - 1) := by
        rw [pow100]
        congr 1
        omega
      have h2 : 100 ^ (x.bcd_digits - 1) * 1 ≤
          100 ^ (x.bcd_digits - 1) * byteVal (x.data.getD (x.bcd_digits - 1) 0) :=
        Nat.mul_le_mul_left _ hbv1
      rw [hdd2]
      omega
    · have h1 : (10 : Nat) ^ (2 * x.bcd_digits - 1) = 100 ^ (x.bcd_digits - 1) * 10 := by
        rw [pow100, ← pow_succ]
        congr 1
        omega
      have h2 : 100 ^ (x.bcd_digits - 1) * byteVal (x.data.getD (x.bcd_digits - 1) 0) ≤
          100 ^ (x.bcd_digits - 1) * 9 :=
        Nat.mul_le_mul_left _ hbv9
      rw [hdd2]
      omega

theorem cmp_loop_ne_nocomp (x y : BCD_int) (n : Nat) : cmp_loop x y n ≠ NO_COMP := by
  induction n with
  | zero => simp [cmp_loop]
  | succ n ih =>
    simp only [cmp_loop]
    split_ifs <;> simp_all

theorem cmp_loop_spec (x y : BCD_int) (n : Nat)
    (hxl : n ≤ x.data.length) (hyl : n ≤ y.data.length)
    (hvx : ∀ b ∈ x.data.take n, ValidBCDByte b)
    (hvy : ∀ b ∈ y.data.take n, ValidBCDByte b) :
    cmp_loop x y n =
      if magVal (x.data.take n) = magVal (y.data.take n) then EQUAL_TO
      else if magVal (y.data.take n) < magVal (x.data.take n) then
        (if x.negative then LESS_THAN else GREATER_THAN)
      else (if x.negative then GREATER_THAN else LESS_THAN) := by
  induction n with
  | zero => simp [cmp_loop]
  | succ n ih =>
    have hx' : n < x.data.length := by omega
    have hy' : n < y.data.length := by omega
    have hvxn : ValidBCDByte (x.data.getD n 0) := hvx _ (mem_take_of_lt hx')
    have hvyn : ValidBCDByte (y.data.getD n 0) := hvy _ (mem_take_of_lt hy')
    have hvx' : ∀ b ∈ x.data.take n, ValidBCDByte b :=
      fun b hb => hvx b (mem_take_mono (by omega) hb)
    have hvy' : ∀ b ∈ y.data.take n, ValidBCDByte b :=
      fun b hb => hvy b (mem_take_mono (by omega) hb)
    have hrec := ih (by omega) (by omega) hvx' hvy'
    have hAx := magVal_lt (x.data.take n) hvx'
    have hAy := magVal_lt (y.data.take n) hvy'
    rw [List.length_take, Nat.min_eq_left (by omega)] at hAx
    rw [List.length_take, Nat.min_eq_left (by omega)] at hAy
    rw [magVal_take_succ x.data n hx', magVal_take_succ y.data n hy']
    simp only [cmp_loop, byteAt]
    by_cases hab : x.data.getD n 0 = y.data.getD n 0
    · rw [if_neg (by omega)]
      rw [hrec, hab]
      have e1 : (magVal (x.data.take n) + 100 ^ n * byteVal (y.data.getD n 0) =
            magVal (y.data.take n) + 100 ^ n * byteVal (y.data.getD n 0)) ↔
          (magVal (x.data.take n) = magVal (y.data.take n)) := by
        constructor
        · exact fun h => Nat.add_right_cancel h
        · intro h
          rw [h]
      have e2 : (magVal (y.data.take n) + 100 ^ n * byteVal (y.data.getD n 0) <
            magVal (x.data.take n) + 100 ^ n * byteVal (y.data.getD n 0)) ↔
          (magVal (y.data.take n) < magVal (x.data.take n)) :=
        add_lt_add_iff_right _
      rw [if_congr e1 rfl (if_congr e2 rfl rfl)]
    · rw [if_pos (by omega)]
      by_cases h2 : y.data.getD n 0 < x.data.getD n 0
      · have hbv : byteVal (y.data.getD n 0) < byteVal (x.data.getD n 0) :=
          (byteVal_lt_iff hvyn hvxn).mpr h2
        have hmul : 100 ^ n * byteVal (y.data.getD n 0) + 100 ^ n ≤
            100 ^ n * byteVal (x.data.getD n 0) := by
          calc 100 ^ n * byteVal (y.data.getD n 0) + 100 ^ n
              = 100 ^ n * (byteVal (y.data.getD n 0) + 1) := by ring
            _ ≤ 100 ^ n * byteVal (x.data.getD n 0) := Nat.mul_le_mul_left _ (by omega)
        rw [if_pos h2, if_pos h2,
          if_neg (show ¬(magVal (x.data.take n) + 100 ^ n * byteVal (x.data.getD n 0) =
            magVal (y.data.take n) + 100 ^ n * byteVal (y.data.getD n 0)) by omega),
          if_pos (show magVal (y.data.take n) + 100 ^ n * byteVal (y.data.getD n 0) <
            magVal (x.data.take n) + 100 ^ n * byteVal (x.data.getD n 0) by omega)]
      · have h2' : x.data.getD n 0 < y.data.getD n 0 := by omega
        have hbv : byteVal (x.data.getD n 0) < byteVal (y.data.getD n 0) :=
          (byteVal_lt_iff hvxn hvyn).mpr h2'
        have hmul : 100 ^ n * byteVal (x.data.getD n 0) + 100 ^ n ≤
            100 ^ n * byteVal (y.data.getD n 0) := by
          calc 100 ^ n * byteVal (x.data.getD n 0) + 100 ^ n
              = 100 ^ n * (byteVal (x.data.getD n 0) + 1) := by ring
            _ ≤ 100 ^ n * byteVal (y.data.getD n 0) := Nat.mul_le_mul_left _ (by omega)
        rw [if_neg h2, if_neg h2,
          if_neg (show ¬(magVal (x.data.take n) + 100 ^ n * byteVal (x.data.getD n 0) =
            magVal (y.data.take n) + 100 ^ n * byteVal (y.data.getD n 0)) by omega),
          if_neg (show ¬(magVal (y.data.take n) + 100 ^ n * byteVal (y.data.getD n 0) <
            magVal (x.data.take n) + 100 ^ n * byteVal (x.data.getD n 0)) by omega)]

/-- C5: `cmp_bcd` returns `NO_COMP` exactly when an operand is NaN, and on
canonical finite operands its sign / digit-count / byte-scan short-circuits
compute precisely the mathematical order of the two denoted integers. -/
theorem claim_C5_cmp_correct (x y : BCD_int) :
    (cmp_bcd x y = NO_COMP ↔ (x.nan = true ∨ y.nan = true)) ∧
    (Canonical x → Canonical y → cmp_bcd x y = compSpec (val x) (val y)) := by
  constructor
  · by_cases hnan : (x.nan || y.nan) = true
    · rw [cmp_bcd.eq_def, if_pos hnan]
      exact iff_of_true rfl (by simpa [Bool.or_eq_true] using hnan)
    · rw [cmp_bcd.eq_def, if_neg hnan]
      simp only [Bool.or_eq_true, not_or, Bool.not_eq_true] at hnan
      apply iff_of_false
      · split_ifs <;> simp [cmp_loop_ne_nocomp]
      · simp [hnan.1, hnan.2]
  · intro hcx hcy
    obtain ⟨hnx, hlx, hvx, hzcx, hnzx⟩ := hcx
    obtain ⟨hny, hly, hvy, hzcy, hnzy⟩ := hcy
    rw [cmp_bcd.eq_def, if_neg (by simp [hnx, hny])]
    by_cases hzx : x.zero = true
    · obtain ⟨hbx, hdx, hngx⟩ := hzcx hzx
      have hmagx : mag x = 0 := mag_zero x hbx
      by_cases hzy : y.zero = true
      · obtain ⟨hby, hdy, hngy⟩ := hzcy hzy
        have hmagy : mag y = 0 := mag_zero y hby
        rw [if_neg (by simp [hngx, hngy]), if_neg (by omega), hbx]
        rw [show cmp_loop x y 0 = EQUAL_TO from rfl]
        rw [val_of_pos x hngx, val_of_pos y hngy, hmagx, hmagy]
        exact (compSpec_eq_EQUAL rfl).symm
      · have hzy' : y.zero = false := by simpa using hzy
        obtain ⟨hb1y, htopy, hddy⟩ := hnzy hzy'
        have hdy1 : 1 ≤ y.decimal_digits := by
          split at hddy <;> omega
        have hmby := mag_bounds y ⟨hny, hly, hvy, hzcy, hnzy⟩ hzy'
        have h10y : 1 ≤ (10 : Nat) ^ (y.decimal_digits - 1) :=
          Nat.one_le_pow _ _ (by norm_num)
        have hmagy_pos : 0 < mag y := by omega
        cases hngy : y.negative
        · rw [if_neg (by simp [hngx, hngy]), if_pos (by omega),
            if_neg (by omega), if_neg (by simp [hngx])]
          rw [val_of_pos x hngx, val_of_pos y hngy, hmagx]
          exact (compSpec_eq_LESS (by exact_mod_cast hmagy_pos)).symm
        · rw [if_pos (by simp [hngx, hngy]), if_neg (by simp [hngx])]
          rw [val_of_pos x hngx, val_of_neg y hngy, hmagx]
          exact (compSpec_eq_GREATER (by
            have : (0 : Int) < (mag y : Int) := by exact_mod_cast hmagy_pos
            omega)).symm
    · have hzx' : x.zero = false := by simpa using hzx
      obtain ⟨hb1x, htopx, hddx⟩ := hnzx hzx'
      have hdx1 : 1 ≤ x.decimal_digits := by
        split at hddx <;> omega
      have hmbx := mag_bounds x ⟨hnx, hlx, hvx, hzcx, hnzx⟩ hzx'
      have h10x : 1 ≤ (10 : Nat) ^ (x.decimal_digits - 1) :=
        Nat.one_le_pow _ _ (by norm_num)
      have hmagx_pos : 0 < mag x := by omega
      by_cases hzy : y.zero = true
      · obtain ⟨hby, hdy, hngy⟩ := hzcy hzy
        have hmagy : mag y = 0 := mag_zero y hby
        cases hngx2 : x.negative
        · rw [if_neg (by simp [hngx2, hngy]), if_pos (by omega),
            if_pos (by omega), if_neg (by simp [hngx2])]
          rw [val_of_pos x hngx2, val_of_pos y hngy, hmagy]
          exact (compSpec_eq_GREATER (by exact_mod_cast hmagx_pos)).symm
        · rw [if_pos (by simp [hngx2, hngy]), if_pos (by simp [hngx2])]
          rw [val_of_neg x hngx2, val_of_pos y hngy, hmagy]
          exact (compSpec_eq_LESS (by
            have : (0 : Int) < (mag x : Int) := by exact_mod_cast hmagx_pos
            omega)).symm
      · have hzy' : y.zero = false := by simpa using hzy
        obtain ⟨hb1y, htopy, hddy⟩ := hnzy hzy'
        have hdy1 : 1 ≤ y.decimal_digits := by
          split at hddy <;> omega
        have hmby := mag_bounds y ⟨hny, hly, hvy, hzcy, hnzy⟩ hzy'
        have h10y : 1 ≤ (10 : Nat) ^ (y.decimal_digits - 1) :=
          Nat.one_le_pow _ _ (by norm_num)
        have hmagy_pos : 0 < mag y := by omega
        by_cases hsig : x.negative = y.negative
        · rw [if_neg (by simp [hsig])]
          by_cases hdd : x.decimal_digits = y.decimal_digits
          · have hbeq : x.bcd_digits = y.bcd_digits := by
              split at hddx <;> split at hddy <;> omega
            rw [if_neg (by omega)]
            rw [cmp_loop_spec x y x.bcd_digits hlx (by rw [hbeq]; exact hly) hvx
              (by rw [hbeq]; exact hvy)]
            rw [show magVal (y.data.take x.bcd_digits) = mag y by rw [hbeq]; rfl]
            rw [show magVal (x.data.take x.bcd_digits) = mag x from rfl]
            cases hng : x.negative
            · have hng' : y.negative = false := by rw [← hsig, hng]
              rw [val_of_pos x hng, val_of_pos y hng']
              by_cases h1 : mag x = mag y
              · rw [if_pos h1]
                exact (compSpec_eq_EQUAL (by exact_mod_cast h1)).symm
              · by_cases h2 : mag y < mag x
                · rw [if_neg h1, if_pos h2]
                  exact (compSpec_eq_GREATER (by exact_mod_cast h2)).symm
                · rw [if_neg h1, if_neg h2]
                  exact (compSpec_eq_LESS (by
                    have hx2 : mag x < mag y := by omega
                    exact_mod_cast hx2)).symm
            · have hng' : y.negative = true := by rw [← hsig, hng]
              rw [val_of_neg x hng, val_of_neg y hng']
              by_cases h1 : mag x = mag y
              · rw [if_pos h1]
                exact (compSpec_eq_EQUAL (by
                  have : (mag x : Int) = (mag y : Int) := by exact_mod_cast h1
                  omega)).symm
              · by_cases h2 : mag y < mag x
                · rw [if_neg h1, if_pos h2]
                  exact (compSpec_eq_LESS (by
                    have : (mag y : Int) < (mag x : Int) := by exact_mod_cast h2
                    omega)).symm
                · rw [if_neg h1, if_neg h2]
                  exact (compSpec_eq_GREATER (by
                    have hx2 : (mag x : Int) < (mag y : Int) := by
                      have : mag x < mag y := by omega
                      exact_mod_cast this
                    omega)).symm
          · rw [if_pos hdd]
            by_cases hgt : x.decimal_digits > y.decimal_digits
            · have hp : (10 : Nat) ^ y.decimal_digits ≤ 10 ^ (x.decimal_digits - 1) :=
                Nat.pow_le_pow_right (by norm_num) (by omega)
              have hmlt : mag y < mag x := by omega
              rw [if_pos hgt]
              cases hng : x.negative
              · have hng' : y.negative = false := by rw [← hsig, hng]
                rw [if_neg (by simp [hng])]
                rw [val_of_pos x hng, val_of_pos y hng']
                exact (compSpec_eq_GREATER (by exact_mod_cast hmlt)).symm
              · have hng' : y.negative = true := by rw [← hsig, hng]
                rw [if_pos (by simp [hng])]
                rw [val_of_neg x hng, val_of_neg y hng']
                exact (compSpec_eq_LESS (by
                  have : (mag y : Int) < (mag x : Int) := by exact_mod_cast hmlt
                  omega)).symm
            · have hp : (10 : Nat) ^ x.decimal_digits ≤ 10 ^ (y.decimal_digits - 1) :=
                Nat.pow_le_pow_right (by norm_num) (by omega)
              have hmlt : mag x < mag y := by omega
              rw [if_neg hgt]
              cases hng : x.negative
              · have hng' : y.negative = false := by rw [← hsig, hng]
                rw [if_neg (by simp [hng])]
                rw [val_of_pos x hng, val_of_pos y hng']
                exact (compSpec_eq_LESS (by exact_mod_cast hmlt)).symm
              · have hng' : y.negative = true := by rw [← hsig, hng]
                rw [if_pos (by simp [hng])]
                rw [val_of_neg x hng, val_of_neg y hng']
                exact (compSpec_eq_GREATER (by
                  have : (mag x : Int) < (mag y : Int) := by exact_mod_cast hmlt
                  omega)).symm
        · rw [if_pos hsig]
          cases hng : x.negative
          · have hng' : y.negative = true := by
              cases hyy : y.negative
              · exact absurd (by rw [hng, hyy]) hsig
              · rfl
            rw [if_neg (by simp [hng])]
            rw [val_of_pos x hng, val_of_neg y hng']
            exact (compSpec_eq_GREATER (by
              have h1 : (0 : Int) < (mag x : Int) := by exact_mod_cast hmagx_pos
              have h2 : (0 : Int) < (mag y : Int) := by exact_mod_cast hmagy_pos
              omega)).symm
          · have hng' : y.negative = false := by
              cases hyy : y.negative
              · rfl
              · exact absurd (by rw [hng, hyy]) hsig
            rw [if_pos (by simp [hng])]
            rw [val_of_neg x hng, val_of_pos y hng']
            exact (compSpec_eq_LESS (by
              have h1 : (0 : Int) < (mag x : Int) := by exact_mod_cast hmagx_pos
              have h2 : (0 : Int) < (mag y : Int) := by exact_mod_cast hmagy_pos
              omega)).symm

/-- C5 witness: the theorem applied at `x = 28`, `y = 5`. -/
theorem claim_C5_witness :
    Canonical (new_BCD_int2 28 false) ∧ Canonical (new_BCD_int2 5 false) ∧
    cmp_bcd (new_BCD_int2 28 false) (new_BCD_int2 5 false) =
      compSpec (val (new_BCD_int2 28 false)) (val (new_BCD_int2 5 false)) :=
  ⟨by decide, by decide,
   (claim_C5_cmp_correct (new_BCD_int2 28 false) (new_BCD_int2 5 false)).2
     (by decide) (by decide)⟩
